import Mathlib

/-!
Verification of the countdown schedule-PDF processing pipeline.

Shallow embedding of the repository's core logic:
* `parseDateRange` (processor / scraper): document-name → column dates;
* `parsePeriodsFromText` (scraper, stream-mode): text → parsed periods;
* `savePeriodsToDatabase` (processor, layout-mode): raw occurrences → entries;
* `pstToUtcIso` / lunch-database rows (database module).

Strings are modelled as lists of Unicode code points (`Str`); JavaScript
`Date` values are modelled as milliseconds since the Unix epoch (the runtime
time zone is taken to be UTC, and calendar dates are modelled as day counts
since 1970-01-01 via the standard civil-from-days / days-from-civil
conversions, which agree with JavaScript `Date` for all relevant inputs).
-/

/-! ## Strings as code-point lists -/

abbrev Str := List Nat

/-- Code points of a Lean string literal. -/
def str (s : String) : Str := s.data.map Char.toNat

/-- ASCII digit. -/
def isDigitC (c : Nat) : Bool := 48 ≤ c && c ≤ 57

/-- JavaScript regex word character (`\w`): letters, digits, underscore. -/
def isWordC (c : Nat) : Bool :=
  isDigitC c || (65 ≤ c && c ≤ 90) || (97 ≤ c && c ≤ 122) || c == 95

/-- JavaScript whitespace (`\s`) restricted to the code points that occur in
the inputs at hand (ASCII whitespace and NBSP). -/
def isSpaceC (c : Nat) : Bool :=
  c == 32 || c == 9 || c == 10 || c == 13 || c == 11 || c == 12 || c == 160

/-- ASCII lower-casing, the effect of `toLowerCase` / the regex `i` flag on
the inputs at hand. -/
def lowerC (c : Nat) : Nat := if 65 ≤ c ∧ c ≤ 90 then c + 32 else c

def lowerStr (s : Str) : Str := s.map lowerC

/-- `String.prototype.trim`. -/
def trimStr (s : Str) : Str :=
  ((s.dropWhile isSpaceC).reverse.dropWhile isSpaceC).reverse

/-- Value of a (nonempty) list of ASCII digit code points. -/
def digitsVal (ds : Str) : Nat := ds.foldl (fun acc d => 10 * acc + (d - 48)) 0

/-- Leading digit run of a string. -/
def digitRun (s : Str) : Str := s.takeWhile isDigitC

/-- JavaScript `parseInt` on the strings that occur here: leading whitespace
is skipped, then a digit run is read; no digits means NaN (`none`). -/
def parseIntJS (s : Str) : Option Int :=
  let t := s.dropWhile isSpaceC
  if digitRun t = [] then none else some (digitsVal (digitRun t) : Int)

/-- JavaScript `Number(...)` on the strings that occur here (pieces of
`split` on digit strings): whitespace-only or empty is 0, a digit string is
its value, anything else is NaN (`none`). -/
def jsNumber (s : Str) : Option Int :=
  let t := trimStr s
  if t = [] then some 0
  else if t.all isDigitC then some (digitsVal t : Int) else none

/-- `String.prototype.lastIndexOf`: largest start index of an occurrence of
`sub` in `h`, or `-1`. -/
def lastIndexOf (h sub : Str) : Int :=
  match ((List.range (h.length + 1)).filter
      (fun i => decide ((h.drop i).take sub.length = sub))).getLast? with
  | some i => (i : Int)
  | none => -1

/-- `String.prototype.split` at a single-code-point separator. -/
def splitOnC (sep : Nat) (s : Str) : List Str :=
  match s with
  | [] => [[]]
  | c :: rest =>
    let tail := splitOnC sep rest
    if c == sep then [] :: tail
    else
      match tail with
      | [] => [[c]]
      | p :: ps => (c :: p) :: ps

/-- First index of an occurrence of `sub` in `h` (`String.prototype.indexOf`). -/
def firstIndexOf (h sub : Str) : Int :=
  match ((List.range (h.length + 1)).filter
      (fun i => decide ((h.drop i).take sub.length = sub))).head? with
  | some i => (i : Int)
  | none => -1

/-- `String.prototype.replace` with a plain-string pattern: replaces the
first occurrence only. -/
def replaceFirst (h sub repl : Str) : Str :=
  match ((List.range (h.length + 1)).filter
      (fun i => decide ((h.drop i).take sub.length = sub))).head? with
  | some i => h.take i ++ repl ++ h.drop (i + sub.length)
  | none => h

/-! ## Calendar model

JavaScript `Date` values are integers (milliseconds since the epoch); local
time zone is modelled as UTC.  `daysFromCivil`/`civilFromDays` are the
standard conversions between a civil date (y, m ∈ 1..12, d — d may lie
outside 1..31, matching the `Date(y, m0, d)` constructor's normalization,
which `daysFromCivil` handles because it is affine in d) and a day count
since 1970-01-01. -/

def daysFromCivil (y m d : Int) : Int :=
  let y' := if m ≤ 2 then y - 1 else y
  let era := y' / 400
  let yoe := y' - era * 400
  let mp := (m + 9) % 12
  let doy := (153 * mp + 2) / 5 + d - 1
  let doe := yoe * 365 + yoe / 4 - yoe / 100 + doy
  era * 146097 + doe - 719468

def yoeOfDoe (doe : Int) : Int :=
  (doe - doe / 1460 + doe / 36524 - doe / 146096) / 365

def doyOfDoe (doe : Int) : Int :=
  doe - (365 * yoeOfDoe doe + yoeOfDoe doe / 4 - yoeOfDoe doe / 100)

def mpOfDoe (doe : Int) : Int := (5 * doyOfDoe doe + 2) / 153

def mOfDoe (doe : Int) : Int := mpOfDoe doe + (if mpOfDoe doe < 10 then 3 else -9)

def dOfDoe (doe : Int) : Int :=
  doyOfDoe doe - (153 * mpOfDoe doe + 2) / 5 + 1

/-- Civil date (year, month 1..12, day 1..31) of a day count since the epoch. -/
def civilFromDays (z : Int) : Int × Int × Int :=
  let doe := (z + 719468) % 146097
  let era := (z + 719468) / 146097
  (yoeOfDoe doe + era * 400 + (if mOfDoe doe ≤ 2 then 1 else 0), mOfDoe doe, dOfDoe doe)

set_option maxHeartbeats 1600000 in
theorem yoe_correct (doe a b c n yoe j k : Int) (h0 : 0 ≤ doe) (h1 : doe ≤ 146096)
    (ha : 1460 * a ≤ doe ∧ doe < 1460 * a + 1460)
    (hb : 36524 * b ≤ doe ∧ doe < 36524 * b + 36524)
    (hc : 146096 * c ≤ doe ∧ doe < 146096 * c + 146096)
    (hn : n = doe - a + b - c)
    (hy : 365 * yoe ≤ n ∧ n < 365 * yoe + 365)
    (hj : 4 * j ≤ yoe ∧ yoe < 4 * j + 4)
    (hk : 100 * k ≤ yoe ∧ yoe < 100 * k + 100) :
    0 ≤ yoe ∧ yoe ≤ 399 ∧
      365 * yoe + j - k ≤ doe ∧
      doe - (365 * yoe + j - k) ≤ 365 := by
  have hb' : 0 ≤ b ∧ b ≤ 4 := by omega
  have hc' : 0 ≤ c ∧ c ≤ 1 := by omega
  have hk' : 0 ≤ k ∧ k ≤ 4 := by omega
  obtain ⟨hb1, hb2⟩ := hb'
  obtain ⟨hc1, hc2⟩ := hc'
  obtain ⟨hk1, hk2⟩ := hk'
  interval_cases b <;> interval_cases c <;> interval_cases k <;> omega

theorem yoe_facts (doe : Int) (h0 : 0 ≤ doe) (h1 : doe ≤ 146096) :
    0 ≤ yoeOfDoe doe ∧ yoeOfDoe doe ≤ 399 ∧ 0 ≤ doyOfDoe doe ∧ doyOfDoe doe ≤ 365 := by
  have hfacts := yoe_correct doe (doe / 1460) (doe / 36524) (doe / 146096)
    (doe - doe / 1460 + doe / 36524 - doe / 146096) (yoeOfDoe doe)
    (yoeOfDoe doe / 4) (yoeOfDoe doe / 100) h0 h1
    (by omega) (by omega) (by omega) rfl
    (by rw [yoeOfDoe]; omega) (by omega) (by omega)
  rw [doyOfDoe]
  omega

theorem reassemble (era yoe mp doy m d : Int)
    (hyoe : 0 ≤ yoe ∧ yoe ≤ 399) (hdoy : 0 ≤ doy ∧ doy ≤ 365)
    (hmp : mp = (5 * doy + 2) / 153)
    (hm : m = mp + (if mp < 10 then 3 else -9))
    (hd : d = doy - (153 * mp + 2) / 5 + 1) :
    daysFromCivil (yoe + era * 400 + (if m ≤ 2 then 1 else 0)) m d
      = era * 146097 + (yoe * 365 + yoe / 4 - yoe / 100 + doy) - 719468 := by
  have hmpb : 0 ≤ mp ∧ mp ≤ 11 := by omega
  simp only [daysFromCivil]
  have hy' : (if m ≤ 2 then yoe + era * 400 + (if m ≤ 2 then 1 else 0) - 1
      else yoe + era * 400 + (if m ≤ 2 then 1 else 0)) = yoe + era * 400 := by
    split_ifs <;> omega
  rw [hy']
  have hera : (yoe + era * 400) / 400 = era := by omega
  rw [hera]
  have hyoe2 : yoe + era * 400 - era * 400 = yoe := by ring
  rw [hyoe2]
  have hmod : (m + 9) % 12 = mp := by
    split_ifs at hm <;> omega
  rw [hmod]
  omega

theorem doe_roundtrip (era doe : Int) (h0 : 0 ≤ doe) (h1 : doe ≤ 146096) :
    daysFromCivil
      (yoeOfDoe doe + era * 400 + (if mOfDoe doe ≤ 2 then 1 else 0))
      (mOfDoe doe) (dOfDoe doe) = era * 146097 + doe - 719468 := by
  have hf := yoe_facts doe h0 h1
  have h := reassemble era (yoeOfDoe doe) (mpOfDoe doe) (doyOfDoe doe) (mOfDoe doe) (dOfDoe doe)
    (by omega) (by omega) (by rw [mpOfDoe]) (by rw [mOfDoe]) (by rw [dOfDoe])
  rw [h]
  have hdoy : doyOfDoe doe
      = doe - (365 * yoeOfDoe doe + yoeOfDoe doe / 4 - yoeOfDoe doe / 100) := by
    rw [doyOfDoe]
  omega

theorem civil_roundtrip (z : Int) :
    daysFromCivil (civilFromDays z).1 (civilFromDays z).2.1 (civilFromDays z).2.2 = z := by
  simp only [civilFromDays]
  have h := doe_roundtrip ((z + 719468) / 146097) ((z + 719468) % 146097)
    (by omega) (by omega)
  rw [h]
  omega

/-- `Date.prototype.getDay`: 0 = Sunday … 6 = Saturday (1970-01-01 was a
Thursday). -/
def dayOfWeek (d : Int) : Int := (d + 4) % 7

/-- The loop guard `dayOfWeek >= 1 && dayOfWeek <= 5` from `parseDateRange`. -/
def isWeekdayB (d : Int) : Bool := decide (1 ≤ dayOfWeek d ∧ dayOfWeek d ≤ 5)

/-! ## DateRangeResolver (`parseDateRange`, identical in processor.ts,
scraper.ts and the pdfjs processor) -/

/-- Strip a trailing `.pdf` (case-insensitive), `filename.replace(/\.pdf$/i, "")`. -/
def stripPdfExt (s : Str) : Str :=
  if 4 ≤ s.length ∧ lowerStr (s.drop (s.length - 4)) = str ".pdf"
  then s.take (s.length - 4) else s

/-- `name.replace(/[-–]/g, "-").replace(/:/g, "").trim()`. -/
def cleanName (s : Str) : Str :=
  trimStr ((s.map (fun c => if c = 45 ∨ c = 8211 then 45 else c)).filter
    (fun c => decide (c ≠ 58)))

def monthNames : List Str :=
  [str "january", str "february", str "march", str "april", str "may",
   str "june", str "july", str "august", str "september", str "october",
   str "november", str "december"]

/-- Is there a word character (`\w`) at position `j`?  Used for the `\b`
boundary assertions. -/
def wordAt (s : Str) (j : Nat) : Bool :=
  match s.get? j with
  | some c => isWordC c
  | none => false

/-- Is there an ASCII digit at position `j`? -/
def digitAt (s : Str) (j : Nat) : Bool :=
  match s.get? j with
  | some c => isDigitC c
  | none => false

/-- Match of `/\b(january|…|december)\b/i` starting at position `i`:
month index (0 = January … 11 = December) and match length. -/
def monthAt (s : Str) (i : Nat) : Option (Nat × Nat) :=
  (List.range 12).findSome? (fun k =>
    match monthNames[k]? with
    | none => none
    | some mn =>
      if lowerStr ((s.drop i).take mn.length) = mn
          ∧ (i = 0 ∨ wordAt s (i - 1) = false)
          ∧ wordAt s (i + mn.length) = false
      then some (k, mn.length) else none)

/-- One global-regex scan step stream: all month matches, left to right
(`cleanName.match(monthPattern)`), as month indices. -/
def monthScanAux (s : Str) : Nat → Nat → List Nat
  | 0, _ => []
  | fuel + 1, i =>
    if i < s.length then
      match monthAt s i with
      | some (k, len) => k :: monthScanAux s fuel (i + len)
      | none => monthScanAux s fuel (i + 1)
    else []

def monthMatches (s : Str) : List Nat := monthScanAux s (s.length + 1) 0

/-- Match of `/(\d{1,2})(?:st|nd|rd|th)?/` at position `i`: numeric value of
the digit part and total match length. -/
def dayAt (s : Str) (i : Nat) : Option (Nat × Nat) :=
  if digitAt s i then
    let baseLen := if digitAt s (i + 1) then 2 else 1
    let digits := (s.drop i).take baseLen
    let suf := (s.drop (i + baseLen)).take 2
    let sufLen :=
      if suf = str "st" ∨ suf = str "nd" ∨ suf = str "rd" ∨ suf = str "th"
      then 2 else 0
    some (digitsVal digits, baseLen + sufLen)
  else none

def dayScanAux (s : Str) : Nat → Nat → List Nat
  | 0, _ => []
  | fuel + 1, i =>
    if i < s.length then
      match dayAt s i with
      | some (v, len) => v :: dayScanAux s fuel (i + len)
      | none => dayScanAux s fuel (i + 1)
    else []

/-- All day-number matches of `cleanName.match(dayPattern)`, as parsed by
`parseInt` (the ordinal suffix does not contribute to the value). -/
def dayMatches (s : Str) : List Nat := dayScanAux s (s.length + 1) 0

/-- The parsed (startMonth, endMonth, startDay, endDay) of a document name,
`none` when `monthMatches.length === 0 || dayMatches.length < 2`.
Month indices are 0-based (January = 0), exactly as in the source's
`months` table. -/
def parseDateRangeParts (filename : Str) : Option (Int × Int × Int × Int) :=
  let cn := cleanName (stripPdfExt filename)
  let ms := monthMatches cn
  let ds := dayMatches cn
  if ms.length = 0 ∨ ds.length < 2 then none
  else
    let startMonth : Int := ms.getD 0 0
    let endMonth : Int := if 1 < ms.length then ms.getD 1 0 else startMonth
    some (startMonth, endMonth, (ds.getD 0 0 : Int), (ds.getD 1 0 : Int))

/-- `const getYear = (month) => (month >= 7 ? 2025 : 2026)` — months are
0-indexed, so `month >= 7` means August through December. -/
def getYear (month : Int) : Int := if 7 ≤ month then 2025 else 2026

/-- The `currentDate` initial value `new Date(getYear(startMonth), startMonth,
startDay)`, as a day count (months 0-indexed in JS, 1-indexed in
`daysFromCivil`). -/
def startDateOf (filename : Str) : Option Int :=
  (parseDateRangeParts filename).map
    (fun p => daysFromCivil (getYear p.1) (p.1 + 1) p.2.2.1)

/-- The `endDate` value `new Date(getYear(endMonth), endMonth, endDay)`. -/
def endDateOf (filename : Str) : Option Int :=
  (parseDateRangeParts filename).map
    (fun p => daysFromCivil (getYear p.2.1) (p.2.1 + 1) p.2.2.2)

/-- The date-collection loop of `parseDateRange`:
`while (currentDate <= endDate && dates.length < 5) { … }` pushing weekdays. -/
def collectWeekdays (cur endD : Int) (acc : List Int) : List Int :=
  if _h : cur ≤ endD ∧ acc.length < 5 then
    collectWeekdays (cur + 1) endD (if isWeekdayB cur then acc ++ [cur] else acc)
  else acc
termination_by (endD + 1 - cur).toNat
decreasing_by omega

/-- `parseDateRange(filename)`: the column dates as day counts. -/
def parseDateRange (filename : Str) : List Int :=
  match parseDateRangeParts filename with
  | none => []
  | some (sm, em, sd, ed) =>
    collectWeekdays (daysFromCivil (getYear sm) (sm + 1) sd)
      (daysFromCivil (getYear em) (em + 1) ed) []

/-- All days in `[a, b]`, in order, that pass the weekday test. -/
def weekdaysBetween (a b : Int) : List Int :=
  ((List.range (b + 1 - a).toNat).map (fun (k : Nat) => a + (k : Int))).filter isWeekdayB

theorem weekdaysBetween_nil (a b : Int) (h : b < a) : weekdaysBetween a b = [] := by
  unfold weekdaysBetween
  have : (b + 1 - a).toNat = 0 := by omega
  rw [this]
  rfl

theorem weekdaysBetween_cons (a b : Int) (h : a ≤ b) :
    weekdaysBetween a b
      = (if isWeekdayB a then [a] else []) ++ weekdaysBetween (a + 1) b := by
  unfold weekdaysBetween
  have hn : (b + 1 - a).toNat = (b + 1 - (a + 1)).toNat + 1 := by omega
  rw [hn, List.range_succ_eq_map]
  simp only [List.map_cons, List.map_map, List.filter_cons]
  have hmap : (List.map ((fun (k : Nat) => a + (k : Int)) ∘ Nat.succ)
      (List.range (b + 1 - (a + 1)).toNat))
      = List.map (fun (k : Nat) => a + 1 + (k : Int)) (List.range (b + 1 - (a + 1)).toNat) := by
    apply List.map_congr_left
    intro x _
    simp only [Function.comp]
    push_cast
    ring
  rw [hmap]
  cases hw : isWeekdayB a <;> simp [hw, add_zero]

theorem collectWeekdays_eq (cur endD : Int) (acc : List Int) (hacc : acc.length ≤ 5) :
    collectWeekdays cur endD acc
      = acc ++ (weekdaysBetween cur endD).take (5 - acc.length) := by
  generalize hn : (endD + 1 - cur).toNat = n
  induction n generalizing cur acc with
  | zero =>
    rw [collectWeekdays]
    have hgt : endD < cur := by omega
    rw [dif_neg (by omega)]
    rw [weekdaysBetween_nil cur endD hgt]
    simp
  | succ n ih =>
    rw [collectWeekdays]
    by_cases hc : cur ≤ endD ∧ acc.length < 5
    · rw [dif_pos hc]
      rw [ih (cur + 1) _ (by cases hw : isWeekdayB cur <;> simp [hw] <;> omega) (by omega)]
      rw [weekdaysBetween_cons cur endD hc.1]
      cases hw : isWeekdayB cur with
      | false => simp [hw]
      | true =>
        simp only [hw, if_true, List.append_assoc, List.singleton_append,
          List.take_cons (by omega : 0 < 5 - acc.length)]
        have hlen : (acc ++ [cur]).length = acc.length + 1 := by simp
        rw [hlen]
        have : 5 - acc.length = (5 - (acc.length + 1)) + 1 := by omega
        rw [this]
        simp [List.take_succ_cons]
    · rw [dif_neg hc]
      rcases (not_and_or.mp hc) with h1 | h2
      · rw [weekdaysBetween_nil cur endD (by omega)]
        simp
      · have : acc.length = 5 := by omega
        rw [this]
        simp

theorem parseDateRange_eq (filename : Str) (sm em sd ed : Int)
    (h : parseDateRangeParts filename = some (sm, em, sd, ed)) :
    parseDateRange filename
      = (weekdaysBetween (daysFromCivil (getYear sm) (sm + 1) sd)
          (daysFromCivil (getYear em) (em + 1) ed)).take 5 := by
  unfold parseDateRange
  rw [h]
  show collectWeekdays (daysFromCivil (getYear sm) (sm + 1) sd)
      (daysFromCivil (getYear em) (em + 1) ed) [] = _
  rw [collectWeekdays_eq _ _ [] (by simp)]
  simp

theorem parseDateRange_none (filename : Str)
    (h : parseDateRangeParts filename = none) : parseDateRange filename = [] := by
  unfold parseDateRange
  rw [h]

/-! ## Claims about DateRangeResolver -/

/-- The year policy as the specification's claim words it: a month in
July (index 6) through December (index 11) maps to 2025, a month in
January (0) through June (5) maps to 2026. -/
def claimYearPolicy (month : Int) : Int := if 6 ≤ month then 2025 else 2026

/-- The amended year policy: August (index 7) through December (11) map to
2025, January (0) through July (6) map to 2026. -/
def amendedYearPolicy (month : Int) : Int := if 7 ≤ month then 2025 else 2026

/-- Claim C1, counterexample: refutation of the claimed year policy at the document name
"July 10th - 11th.pdf": the code resolves July to 2026, the claim's policy
demands 2025. -/
theorem year_policy_counterexample :
    parseDateRangeParts (str "July 10th - 11th.pdf") = some (6, 6, 10, 11) ∧
    claimYearPolicy 6 = 2025 ∧
    startDateOf (str "July 10th - 11th.pdf") = some (daysFromCivil 2026 7 10) ∧
    startDateOf (str "July 10th - 11th.pdf") ≠ some (daysFromCivil (claimYearPolicy 6) 7 10) := by
  exact ⟨by rfl, by rfl, by rfl, by decide⟩

/-- Claim C1 (amended): for every parseable document name, the resolved start and end months are
assigned years by the fixed academic-year policy with the rollover between
July and August: a month in August through December maps to 2025, a month in
January through July maps to 2026. -/
theorem year_policy (filename : Str) (sm em sd ed : Int)
    (h : parseDateRangeParts filename = some (sm, em, sd, ed)) :
    startDateOf filename = some (daysFromCivil (amendedYearPolicy sm) (sm + 1) sd) ∧
    endDateOf filename = some (daysFromCivil (amendedYearPolicy em) (em + 1) ed) ∧
    (∀ m : Int, getYear m = amendedYearPolicy m) := by
  refine ⟨?_, ?_, fun m => rfl⟩ <;>
    simp [startDateOf, endDateOf, h, getYear, amendedYearPolicy]

theorem year_policy_witness :
    startDateOf (str "August 3rd - 7th.pdf")
      = some (daysFromCivil (amendedYearPolicy 7) 8 3) :=
  (year_policy (str "August 3rd - 7th.pdf") 7 7 3 7 (by rfl)).1

/-- Claim C4, counterexample: refutation of "returns exactly the weekdays in [D1, D2]" at the document
name "April 1st - 30th.pdf" (April 2026 contains far more than 5 weekdays):
the returned sequence is not the full weekday list of the range. -/
theorem date_range_exact_counterexample :
    parseDateRangeParts (str "April 1st - 30th.pdf") = some (3, 3, 1, 30) ∧
    parseDateRange (str "April 1st - 30th.pdf")
      ≠ weekdaysBetween (daysFromCivil (getYear 3) 4 1) (daysFromCivil (getYear 3) 4 30) := by
  have heq := parseDateRange_eq (str "April 1st - 30th.pdf") 3 3 1 30 (by rfl)
  refine ⟨by rfl, ?_⟩
  rw [heq]
  decide

/-- Claim C4 (amended): for every parseable document name with both days resolved in one month,
`parseDateRange` returns the first at most 5 weekdays of the inclusive range
[start date, end date], in ascending order. -/
theorem date_range_take5 (filename : Str) (sm em sd ed : Int)
    (h : parseDateRangeParts filename = some (sm, em, sd, ed)) (hone : em = sm) :
    parseDateRange filename
      = (weekdaysBetween (daysFromCivil (getYear sm) (sm + 1) sd)
          (daysFromCivil (getYear sm) (sm + 1) ed)).take 5 ∧
    List.Pairwise (· < ·) (parseDateRange filename) := by
  rw [hone] at h
  refine ⟨parseDateRange_eq filename sm sm sd ed h, ?_⟩
  rw [parseDateRange_eq filename sm sm sd ed h]
  apply List.Pairwise.sublist (List.take_sublist _ _)
  apply List.Pairwise.sublist (List.filter_sublist _)
  rw [List.pairwise_map]
  apply (List.pairwise_lt_range _).imp
  intro a b hab
  omega

theorem date_range_take5_witness :
    parseDateRange (str "April 6th - 10th.pdf")
      = (weekdaysBetween (daysFromCivil (getYear 3) 4 6)
          (daysFromCivil (getYear 3) 4 10)).take 5 :=
  (date_range_take5 (str "April 6th - 10th.pdf") 3 3 6 10 (by rfl) rfl).1

/-- Claim C8: for every input filename string whatsoever, the returned date sequence is
strictly increasing, contains only weekdays, and has at most 5 elements. -/
theorem date_range_invariant (filename : Str) :
    List.Pairwise (· < ·) (parseDateRange filename) ∧
    (∀ d ∈ parseDateRange filename, isWeekdayB d = true) ∧
    (parseDateRange filename).length ≤ 5 := by
  match hp : parseDateRangeParts filename with
  | none =>
    rw [parseDateRange_none _ hp]
    simp
  | some (sm, em, sd, ed) =>
    rw [parseDateRange_eq _ _ _ _ _ hp]
    refine ⟨?_, ?_, ?_⟩
    · apply List.Pairwise.sublist (List.take_sublist _ _)
      apply List.Pairwise.sublist (List.filter_sublist _)
      rw [List.pairwise_map]
      apply (List.pairwise_lt_range _).imp
      intro a b hab
      omega
    · intro d hd
      exact List.of_mem_filter (List.mem_of_mem_take hd)
    · exact List.length_take_le _ _

/-! ## Stable sort model

`Array.prototype.sort` is stable (ECMAScript 2019+); for a comparator that
induces a total preorder the stable sorted sequence is unique, so a stable
insertion sort is a faithful model.  `le a b` means "comparator(a,b) ≤ 0";
a later element is inserted after every earlier element it does not strictly
precede. -/

def insertSorted (le : α → α → Bool) (a : α) : List α → List α
  | [] => [a]
  | b :: bs => if le b a then b :: insertSorted le a bs else a :: b :: bs

def stableSort (le : α → α → Bool) (l : List α) : List α :=
  l.foldl (fun acc a => insertSorted le a acc) []

/-! ## RawOccurrenceExtractor, stream-mode (`parsePeriodsFromText` in
scraper.ts) -/

/-- One `Period <n> <h:mm> - <h:mm> (<k>)` regex match: captured period
number, start and end time strings, and the match's character offset. -/
structure StreamMatch where
  periodNum : Int
  startTime : Str
  endTime : Str
  index : Nat
deriving DecidableEq, Repr

/-- One resolved period occurrence (the `ParsedPeriod` record of scraper.ts). -/
structure ParsedPeriod where
  name : Str
  startTime : Str
  endTime : Str
  columnIndex : Nat
deriving DecidableEq, Repr

def dayNames : List Str :=
  [str "Monday", str "Tuesday", str "Wednesday", str "Thursday", str "Friday"]

/-- The character class `[\d,\-]`. -/
def isRosterC (c : Nat) : Bool := isDigitC c || c == 44 || c == 45

/-- The character class `[-–]`. -/
def isDashC (c : Nat) : Bool := c == 45 || c == 8211

/-- Length of the whitespace run starting at `i` (greedy `\s*`). -/
def wsRunLen (t : Str) (i : Nat) : Nat := ((t.drop i).takeWhile isSpaceC).length

/-- Match of the day-header pattern `<dayName>\s*\n([\d,\-]+)` (flag `i`) at
position `i`, returning the captured roster string.  The greedy `\s*`
followed by `\n` matches exactly when the maximal whitespace run ends with a
newline (the capture class is disjoint from whitespace, so no other
backtracking split can succeed). -/
def headerAt (t dayName : Str) (i : Nat) : Option Str :=
  if lowerStr ((t.drop i).take dayName.length) = lowerStr dayName then
    let ws := (t.drop (i + dayName.length)).takeWhile isSpaceC
    if ws ≠ [] ∧ ws.getLast? = some 10 then
      let cap := (t.drop (i + dayName.length + ws.length)).takeWhile isRosterC
      if cap ≠ [] then some cap else none
    else none
  else none

def headerScanAux (t dayName : Str) : Nat → Nat → Option Str
  | 0, _ => none
  | fuel + 1, i =>
    if i < t.length then
      match headerAt t dayName i with
      | some cap => some cap
      | none => headerScanAux t dayName fuel (i + 1)
    else none

/-- First match of the day-header pattern (`text.match(dayPattern)`). -/
def findHeader (t dayName : Str) : Option Str :=
  headerScanAux t dayName (t.length + 1) 0

def intRangeList (a b : Int) : List Int :=
  (List.range (b + 1 - a).toNat).map (fun (k : Nat) => a + (k : Int))

/-- Roster string → period numbers: `"1-6"` style becomes the inclusive
range, otherwise comma-separated `parseInt` values (a NaN piece contributes
nothing, faithful for the 1–6 membership queries made of the set). -/
def parseRoster (ps : Str) : List Int :=
  if ps.contains 45 && !(ps.contains 44) then
    match (splitOnC 45 ps).map jsNumber with
    | some sv :: some ev :: _ => intRangeList sv ev
    | _ => []
  else
    (splitOnC 44 ps).filterMap parseIntJS

/-- Periods that meet on day `d` according to the header (empty when the
day's roster line is absent — `dayPeriods.get(d)?.has(p)` is then false). -/
def rosterOf (t : Str) (d : Nat) : List Int :=
  match dayNames[d]? with
  | some dn =>
    match findHeader t dn with
    | some cap => parseRoster cap
    | none => []
  | none => []

/-- `periodDays`: the ordered list of days (0..4) on which period `p` is
expected; empty for `p` outside 1..6 (`periodDays.get(periodNum) || []`). -/
def periodDaysFor (t : Str) (p : Int) : List Nat :=
  if 1 ≤ p ∧ p ≤ 6 then (List.range 5).filter (fun d => (rosterOf t d).contains p)
  else []

/-- Match of `(\d{1,2}:\d{2})` at `i`: end position and matched substring.
The greedy `\d{1,2}` prefers two digits; the two alternatives are mutually
exclusive, so no later backtracking can revisit this choice. -/
def matchTimeAt (t : Str) (i : Nat) : Option (Nat × Str) :=
  if digitAt t i && digitAt t (i + 1) && (t.get? (i + 2) == some 58)
      && digitAt t (i + 3) && digitAt t (i + 4) then
    some (i + 5, (t.drop i).take 5)
  else if digitAt t i && (t.get? (i + 1) == some 58)
      && digitAt t (i + 2) && digitAt t (i + 3) then
    some (i + 4, (t.drop i).take 4)
  else none

/-- The part of the period pattern after the period number:
`\s*[\n\s]*(\d{1,2}:\d{2})\s*[-–]\s*(\d{1,2}:\d{2})\s*\(\d+\)`.
Every adjacent pair of elements has disjoint character classes, so greedy
matching without further backtracking is exact. -/
def periodTail (t : Str) (m : Nat) : Option (Nat × Str × Str) :=
  let m2 := m + wsRunLen t m
  match matchTimeAt t m2 with
  | none => none
  | some (m3, st) =>
    let m4 := m3 + wsRunLen t m3
    match t.get? m4 with
    | none => none
    | some c =>
      if isDashC c then
        let m5 := m4 + 1 + wsRunLen t (m4 + 1)
        match matchTimeAt t m5 with
        | none => none
        | some (m6, et) =>
          let m7 := m6 + wsRunLen t m6
          if t.get? m7 == some 40 then
            let dr := (t.drop (m7 + 1)).takeWhile isDigitC
            if dr ≠ [] ∧ t.get? (m7 + 1 + dr.length) = some 41 then
              some (m7 + 1 + dr.length + 1, st, et)
            else none
          else none
      else none

/-- Backtracking over the greedy `(\d+)` period-number group: try `s` digits,
then shrink. -/
def periodSplit (t : Str) (k : Nat) : Nat → Option (Nat × Int × Str × Str)
  | 0 => none
  | s + 1 =>
    match periodTail t (k + s + 1) with
    | some (e, st, et) =>
      some (e, (digitsVal ((t.drop k).take (s + 1)) : Int), st, et)
    | none => periodSplit t k s

/-- Match of `Period\s+(\d+)\s*[\n\s]*(\d{1,2}:\d{2})\s*[-–]\s*(\d{1,2}:\d{2})\s*\(\d+\)`
at position `i`: end position, period number, start and end time strings. -/
def matchPeriodAt (t : Str) (i : Nat) : Option (Nat × Int × Str × Str) :=
  if (t.drop i).take 6 = str "Period" then
    let w := wsRunLen t (i + 6)
    if w = 0 then none
    else
      let k := i + 6 + w
      let dr := (t.drop k).takeWhile isDigitC
      if dr = [] then none
      else periodSplit t k dr.length
  else none

def periodScanAux (t : Str) : Nat → Nat → List StreamMatch
  | 0, _ => []
  | fuel + 1, i =>
    if i < t.length then
      match matchPeriodAt t i with
      | some (e, p, st, et) => ⟨p, st, et, i⟩ :: periodScanAux t fuel e
      | none => periodScanAux t fuel (i + 1)
    else []

/-- All period-pattern matches in document order with their offsets
(the `while ((match = periodPattern.exec(text)) !== null)` loop). -/
def periodScan (t : Str) : List StreamMatch := periodScanAux t (t.length + 1) 0

/-- Decimal digits of a natural number (fuel-based; fuel `n + 1` suffices). -/
def natDigits : Nat → Nat → List Nat
  | 0, _ => []
  | fuel + 1, n => if n < 10 then [48 + n] else natDigits fuel (n / 10) ++ [48 + n % 10]

def natToStr (n : Nat) : Str := natDigits (n + 1) n

/-- JavaScript number-to-string for integers. -/
def intToStr (z : Int) : Str :=
  if z < 0 then 45 :: natToStr (-z).toNat else natToStr z.toNat

/-- The template string `Period ${periodNum}\n${existingStartTime}` used by
the lunch tie-break's `lastIndexOf`. -/
def lunchCompareKey (p : Int) (exStart : Str) : Str :=
  str "Period " ++ intToStr p ++ [10] ++ exStart

/-- `lastALunch > textBefore.lastIndexOf(\`Period ${n}\n${existing.startTime}\`)`
where `textBefore = text.substring(0, entry.index)`. -/
def isAfterALunch (text : Str) (idx : Nat) (p : Int) (exStart : Str) : Bool :=
  decide (lastIndexOf (text.take idx) (str "A Lunch")
    > lastIndexOf (text.take idx) (lunchCompareKey p exStart))

/-- Same with the last `"B Lunch"` index. -/
def isAfterBLunch (text : Str) (idx : Nat) (p : Int) (exStart : Str) : Bool :=
  decide (lastIndexOf (text.take idx) (str "B Lunch")
    > lastIndexOf (text.take idx) (lunchCompareKey p exStart))

/-- State of the occurrence-assignment loop: the per-period `nextDayIndex`
cursor map and the `result` map in key-insertion order. -/
structure StreamState where
  cursors : Int → Nat
  result : List ((Int × Nat) × ParsedPeriod)

/-- `Map.set` on an association list: update in place, else append. -/
def setKey (r : List ((Int × Nat) × ParsedPeriod)) (k : Int × Nat) (v : ParsedPeriod) :
    List ((Int × Nat) × ParsedPeriod) :=
  match r with
  | [] => [(k, v)]
  | (k', v') :: rest => if k' = k then (k, v) :: rest else (k', v') :: setKey rest k v

def updateCursor (f : Int → Nat) (p : Int) (v : Nat) : Int → Nat :=
  fun q => if q = p then v else f q

/-- The wrap-around of the day cursor:
`if (dayIndexPtr >= daysForThisPeriod.length) nextDayIndex.set(periodNum, 0)`. -/
def wrapCursor (days : List Nat) (ptr : Nat) : Nat :=
  if days.length ≤ ptr then 0 else ptr

/-- One iteration of the `for (const entry of allMatches)` assignment loop. -/
def streamStep (text : Str) (pd : Int → List Nat) (st : StreamState) (e : StreamMatch) :
    StreamState :=
  let p := e.periodNum
  let days := pd p
  let cur := wrapCursor days (st.cursors p)
  match days[cur]? with
  | none => ⟨updateCursor st.cursors p cur, st.result⟩
  | some day =>
    let cursors := updateCursor st.cursors p (cur + 1)
    let key := (p, day)
    let newPP : ParsedPeriod := ⟨str "Period " ++ intToStr p, e.startTime, e.endTime, day⟩
    match List.lookup key st.result with
    | none => ⟨cursors, setKey st.result key newPP⟩
    | some ex =>
      if p = 3 ∧ isAfterBLunch text e.index p ex.startTime = true then
        ⟨cursors, setKey st.result key newPP⟩
      else if p = 4 ∧ isAfterALunch text e.index p ex.startTime = true then
        ⟨cursors, setKey st.result key newPP⟩
      else ⟨cursors, st.result⟩

/-- `parseInt(name.replace("Period ", ""))` for the final sort comparator. -/
def periodNumOfName (n : Str) : Int :=
  (parseIntJS (replaceFirst n (str "Period ") [])).getD 0

/-- The final sort: by column index, then by period number. -/
def ppLE (a b : ParsedPeriod) : Bool :=
  a.columnIndex < b.columnIndex
    || (a.columnIndex == b.columnIndex && periodNumOfName a.name ≤ periodNumOfName b.name)

/-- `parsePeriodsFromText(text, dates)` of scraper.ts (the `dates` argument
is not read by the function). -/
def parsePeriodsFromText (text : Str) : List ParsedPeriod :=
  let ms := periodScan text
  let final := ms.foldl (streamStep text (periodDaysFor text)) ⟨fun _ => 0, []⟩
  stableSort ppLE (final.result.map (fun e => e.2))

/-- `Entry`: a schedule entry with absolute instants in epoch milliseconds. -/
structure Entry where
  name : Str
  startTime : Int
  endTime : Int
deriving DecidableEq, Repr

/-- `timeStr.split(":").map(Number)` destructured as `[hours, minutes]`;
`none` models the NaN outcome, which cannot arise for the
regex-matched `h:mm` strings that reach it. -/
def splitTimeJS (s : Str) : Option (Int × Int) :=
  match (splitOnC 58 s).map jsNumber with
  | some h :: some m :: _ => some (h, m)
  | _ => none

/-- The entry-assembly loop of `testOnePDF` (scraper.ts): hours below 7 are
PM; `setHours(h, m, 0, 0)` on the column date. -/
def streamAssemble (dates : List Int) (periods : List ParsedPeriod) : List Entry :=
  periods.filterMap (fun pp =>
    match dates[pp.columnIndex]? with
    | none => none
    | some date =>
      match splitTimeJS pp.startTime, splitTimeJS pp.endTime with
      | some (sh, smin), some (eh, emin) =>
        some ⟨pp.name,
          date * 86400000 + (if sh < 7 then sh + 12 else sh) * 3600000 + smin * 60000,
          date * 86400000 + (if eh < 7 then eh + 12 else eh) * 3600000 + emin * 60000⟩
      | _, _ => none)

/-! ## Claims about stream-mode extraction -/

theorem lookup_setKey_self (r : List ((Int × Nat) × ParsedPeriod)) (k : Int × Nat)
    (v : ParsedPeriod) : List.lookup k (setKey r k v) = some v := by
  induction r with
  | nil => simp [setKey, List.lookup]
  | cons e rest ih =>
    obtain ⟨k', v'⟩ := e
    by_cases hk : k' = k
    · subst hk
      simp [setKey, List.lookup]
    · have hbeq : (k == k') = false := by
        simp only [beq_eq_false_iff_ne, ne_eq]
        exact fun h => hk h.symm
      simp [setKey, hk, List.lookup, hbeq, ih]

/-- Claim C2 (amended): in stream-mode, when an occurrence lands on an already-assigned
(period, day) slot, the slot afterwards holds the new occurrence exactly
when (period = 3 and the last "B Lunch" before the occurrence lies after the
last occurrence of "Period <n>\n<existing start>") or (period = 4 and
likewise for "A Lunch"); in every other case the existing occurrence is
kept. -/
theorem lunch_tiebreak_step (text : Str) (pd : Int → List Nat) (st : StreamState)
    (e : StreamMatch) (day : Nat) (ex : ParsedPeriod)
    (hday : (pd e.periodNum)[wrapCursor (pd e.periodNum) (st.cursors e.periodNum)]? = some day)
    (hex : List.lookup (e.periodNum, day) st.result = some ex) :
    List.lookup (e.periodNum, day) (streamStep text pd st e).result
      = some (if (e.periodNum = 3 ∧ isAfterBLunch text e.index e.periodNum ex.startTime = true)
              ∨ (e.periodNum = 4 ∧ isAfterALunch text e.index e.periodNum ex.startTime = true)
          then ⟨str "Period " ++ intToStr e.periodNum, e.startTime, e.endTime, day⟩ else ex) := by
  simp only [streamStep, hday, hex]
  by_cases h3 : e.periodNum = 3 ∧ isAfterBLunch text e.index e.periodNum ex.startTime = true
  · simp only [if_pos h3]
    rw [lookup_setKey_self]
    rw [if_pos (Or.inl h3)]
  · rw [if_neg h3]
    by_cases h4 : e.periodNum = 4 ∧ isAfterALunch text e.index e.periodNum ex.startTime = true
    · simp only [if_pos h4]
      rw [lookup_setKey_self]
      rw [if_pos (Or.inr h4)]
    · rw [if_neg h4, if_neg (by tauto)]
      exact hex

def c2text : Str :=
  str "Monday\n3\nPeriod 3\n9:00 - 9:45 (1)\nB Lunch\nA Lunch\nPeriod 3\n10:00 - 10:45 (1)"

theorem lunch_tiebreak_step_witness :
    List.lookup ((3 : Int), (0 : Nat))
      ((streamStep c2text (fun p => if p = 3 then [0] else [])
        ⟨fun _ => 1, [((3, 0), ⟨str "Period 3", str "9:00", str "9:45", 0⟩)]⟩
        ⟨3, str "10:00", str "10:45", 50⟩).result)
      = some ⟨str "Period 3", str "10:00", str "10:45", 0⟩ := by
  have h := lunch_tiebreak_step c2text (fun p => if p = 3 then [0] else [])
    ⟨fun _ => 1, [((3, 0), ⟨str "Period 3", str "9:00", str "9:45", 0⟩)]⟩
    ⟨3, str "10:00", str "10:45", 50⟩ 0 ⟨str "Period 3", str "9:00", str "9:45", 0⟩
    (by rfl) (by rfl)
  rw [h]
  decide

/-- Claim-side reading of the tie-break: the nearest lunch marker preceding
the occurrence in the text is "B Lunch". -/
def nearestPrecedingLunchIsB (text : Str) (idx : Nat) : Prop :=
  lastIndexOf (text.take idx) (str "B Lunch") > lastIndexOf (text.take idx) (str "A Lunch")

/-- Claim-side: the nearest preceding lunch marker is "A Lunch". -/
def nearestPrecedingLunchIsA (text : Str) (idx : Nat) : Prop :=
  lastIndexOf (text.take idx) (str "A Lunch") > lastIndexOf (text.take idx) (str "B Lunch")

/-- Claim-side replacement rule: the new occurrence replaces the existing one
only if period 3 with nearest preceding marker "B Lunch", or period 4 with
nearest preceding marker "A Lunch". -/
def claimKeepsNew (p : Int) (text : Str) (idx : Nat) : Prop :=
  (p = 3 ∧ nearestPrecedingLunchIsB text idx)
    ∨ (p = 4 ∧ nearestPrecedingLunchIsA text idx)

/-- Claim C2, counterexample: refutation of the claimed tie-break rule — in `c2text` the second
"Period 3" occurrence (offset 50) has "A Lunch" as its nearest preceding
lunch marker, so by the claim the existing 9:00 occurrence must be kept;
the code replaces it with the new 10:00 occurrence. -/
theorem lunch_tiebreak_counterexample :
    periodScan c2text
      = [⟨3, str "9:00", str "9:45", 9⟩, ⟨3, str "10:00", str "10:45", 50⟩] ∧
    ¬ claimKeepsNew 3 c2text 50 ∧
    parsePeriodsFromText c2text = [⟨str "Period 3", str "10:00", str "10:45", 0⟩] := by
  refine ⟨by rfl, ?_, by rfl⟩
  unfold claimKeepsNew nearestPrecedingLunchIsB nearestPrecedingLunchIsA
  decide

/-! ## Claim about the stream-mode single-occurrence scenario -/

def c6text : Str := str "Monday\n1-6\nPeriod 1 1:00 - 1:45 (1)"

theorem april_week :
    parseDateRange (str "April 6th - 10th.pdf") = [20549, 20550, 20551, 20552, 20553] := by
  rw [parseDateRange_eq (str "April 6th - 10th.pdf") 3 3 6 10 (by rfl)]
  decide

/-- Claim C6: stream-mode on "Monday\n1-6\nPeriod 1 1:00 - 1:45 (1)" — the single
occurrence is assigned to column 0 (Monday, April 6 2026 here), and its
assembled start instant is 13:00 on that date. -/
theorem stream_monday_period1 :
    periodScan c6text = [⟨1, str "1:00", str "1:45", 11⟩] ∧
    parsePeriodsFromText c6text = [⟨str "Period 1", str "1:00", str "1:45", 0⟩] ∧
    (parseDateRange (str "April 6th - 10th.pdf"))[0]? = some (daysFromCivil 2026 4 6) ∧
    dayOfWeek (daysFromCivil 2026 4 6) = 1 ∧
    streamAssemble (parseDateRange (str "April 6th - 10th.pdf")) (parsePeriodsFromText c6text)
      = [⟨str "Period 1", daysFromCivil 2026 4 6 * 86400000 + 13 * 3600000,
          daysFromCivil 2026 4 6 * 86400000 + 13 * 3600000 + 45 * 60000⟩] := by
  have hd := april_week
  refine ⟨by rfl, by rfl, by rw [hd]; decide, by decide, ?_⟩
  rw [hd]
  decide

/-! ## Layout-mode duplicate resolution and entry assembly
(`savePeriodsToDatabase` of the pdfjs processor) -/

/-- A layout-mode raw occurrence (element of `allMatches`). -/
structure PMatch where
  periodNum : Int
  startTime : Str
  endTime : Str
  x : Int
  y : Int
  columnIndex : Int
deriving DecidableEq, Repr

/-- Group accumulation step: `byDayAndPeriod` keyed by
`${columnIndex}-${periodNum}` (modelled as the pair, to which the string key
round-trips for the nonnegative indices produced when day headers exist),
appending within a group, keys in first-seen order. -/
def addToGroups (gs : List ((Int × Int) × List PMatch)) (m : PMatch) :
    List ((Int × Int) × List PMatch) :=
  match gs with
  | [] => [((m.columnIndex, m.periodNum), [m])]
  | (k, ms) :: rest =>
    if k = (m.columnIndex, m.periodNum) then (k, ms ++ [m]) :: rest
    else (k, ms) :: addToGroups rest m

def groupByDayPeriod (ms : List PMatch) : List ((Int × Int) × List PMatch) :=
  ms.foldl addToGroups []

/-- `periods.sort((a, b) => b.y - a.y)`: y descending, ties in input order. -/
def yDescLE (a b : PMatch) : Bool := decide (b.y ≤ a.y)

def sortByYDesc (g : List PMatch) : List PMatch := stableSort yDescLE g

/-- The duplicate rule applied to one (column, period) group:
period 3 → first of the y-descending order, period 4 with more than one
member → second, otherwise first. -/
def resolveGroup (p : Int) (g : List PMatch) : Option PMatch :=
  let sorted := sortByYDesc g
  if p = 3 then sorted[0]?
  else if p = 4 ∧ 1 < sorted.length then sorted[1]?
  else sorted[0]?

/-- `dates[colIdx]` for a JavaScript (possibly negative) index. -/
def dateAt (dates : List Int) (i : Int) : Option Int :=
  if i < 0 then none else dates[i.toNat]?

/-- `parseTime(timeStr, baseDate)`: split on ":", hours below 7 become PM,
`setHours(h, m, 0, 0)` on the base date.  `none` models the NaN outcome,
unreachable for the `h:mm` strings produced by the extraction regexes. -/
def parseTime (timeStr : Str) (baseDate : Int) : Option Int :=
  (splitTimeJS timeStr).map (fun hm =>
    baseDate * 86400000 + (if hm.1 < 7 then hm.1 + 12 else hm.1) * 3600000 + hm.2 * 60000)

/-- Body of the per-group loop: date lookup, duplicate resolution, the
`!selected.startTime || !selected.endTime` guard, and time parsing. -/
def assembleGroup (dates : List Int) (key : Int × Int) (g : List PMatch) : Option Entry :=
  match dateAt dates key.1 with
  | none => none
  | some date =>
    match resolveGroup key.2 g with
    | none => none
    | some sel =>
      if sel.startTime = [] ∨ sel.endTime = [] then none
      else
        match parseTime sel.startTime date, parseTime sel.endTime date with
        | some st, some et => some ⟨str "Period " ++ intToStr key.2, st, et⟩
        | _, _ => none

/-- `entries.sort((a, b) => a.startTime.getTime() - b.startTime.getTime())`. -/
def entryLE (a b : Entry) : Bool := decide (a.startTime ≤ b.startTime)

/-- `savePeriodsToDatabase(allMatches, dates)`: the list handed to
`insertMany`, built by pushing one entry per surviving group and then
sorting by start instant. -/
def savePeriodsToDatabase (ms : List PMatch) (dates : List Int) : List Entry :=
  let entries := (groupByDayPeriod ms).foldl
    (fun acc g =>
      match assembleGroup dates g.1 g.2 with
      | some e => acc ++ [e]
      | none => acc) []
  stableSort entryLE entries

/-! ## Claims about the duplicate resolver and the assembler -/

/-- Claim C3: for every (column, period) group the resolver takes the y-descending
order and selects: first if period 3; second if period 4 with more than one
member; first otherwise.  In particular a two-member period-4 group — e.g.
at column 2 — always yields the occurrence with the smaller y (the
second-topmost), never the topmost. -/
theorem duplicate_rule (p : Int) (g : List PMatch) (m1 m2 : PMatch) :
    (resolveGroup p g = (if p = 3 then (sortByYDesc g)[0]?
        else if p = 4 ∧ 1 < (sortByYDesc g).length then (sortByYDesc g)[1]?
        else (sortByYDesc g)[0]?)) ∧
    resolveGroup 4 [m1, m2] = some (if m2.y ≤ m1.y then m2 else m1) ∧
    (resolveGroup 4 [m1, m2]).map (fun m => m.y) = some (min m1.y m2.y) := by
  have h43 : ¬ ((4 : Int) = 3) := by norm_num
  refine ⟨rfl, ?_, ?_⟩ <;>
    · simp only [resolveGroup, sortByYDesc, stableSort, List.foldl, insertSorted, yDescLE]
      by_cases hle : m2.y ≤ m1.y <;> simp [hle, h43] <;> omega

theorem foldl_push_filterMap (f : (Int × Int) × List PMatch → Option Entry)
    (l : List ((Int × Int) × List PMatch)) (acc : List Entry) :
    l.foldl (fun acc g =>
      match f g with
      | some e => acc ++ [e]
      | none => acc) acc = acc ++ l.filterMap f := by
  induction l generalizing acc with
  | nil => simp
  | cons g rest ih =>
    simp only [List.foldl_cons, List.filterMap_cons]
    match hf : f g with
    | some e => rw [ih]; simp
    | none => rw [ih]

/-- Claim C9: the assembly stage emits at most one entry per (column, period) group,
in group order — it neither deduplicates further nor reorders — and the
function sorts by start instant only afterwards, just before persistence. -/
theorem assembler_order (ms : List PMatch) (dates : List Int) :
    savePeriodsToDatabase ms dates
      = stableSort entryLE
          ((groupByDayPeriod ms).filterMap (fun g => assembleGroup dates g.1 g.2)) := by
  unfold savePeriodsToDatabase
  rw [foldl_push_filterMap]
  rfl

/-- Claim C7: a document name with no month token or fewer than two day numbers yields
no dates, and an empty date sequence yields no entries downstream. -/
theorem unparseable_name (filename : Str)
    (h : monthMatches (cleanName (stripPdfExt filename)) = []
       ∨ (dayMatches (cleanName (stripPdfExt filename))).length < 2) :
    parseDateRangeParts filename = none ∧
    parseDateRange filename = [] ∧
    (∀ ms : List PMatch, savePeriodsToDatabase ms (parseDateRange filename) = []) := by
  have hnone : parseDateRangeParts filename = none := by
    unfold parseDateRangeParts
    rw [if_pos]
    rcases h with h1 | h2
    · left
      rw [h1]
      rfl
    · right
      exact h2
  refine ⟨hnone, parseDateRange_none filename hnone, ?_⟩
  intro ms
  rw [parseDateRange_none filename hnone]
  simp only [savePeriodsToDatabase]
  rw [foldl_push_filterMap]
  have hnil : (groupByDayPeriod ms).filterMap (fun g => assembleGroup [] g.1 g.2) = [] := by
    rw [List.filterMap_eq_nil_iff]
    intro g _
    unfold assembleGroup dateAt
    by_cases hneg : g.1.1 < 0
    · rw [if_pos hneg]
    · rw [if_neg hneg]
      rfl
  rw [hnil]
  rfl

theorem unparseable_name_witness :
    parseDateRangeParts (str "schedule.pdf") = none ∧
    parseDateRange (str "schedule.pdf") = [] := by
  have h := unparseable_name (str "schedule.pdf") (Or.inl (by rfl))
  exact ⟨h.1, h.2.1⟩

/-- Claim C5: the 12-hour disambiguation — a parsed hour strictly below 7 is normalized
by adding 12, hours 7 or greater are unchanged; in particular "1:00" and
"1:45" on column date D yield instants 13:00 and 13:45 on D. -/
theorem time_convention (timeStr : Str) (h m D : Int)
    (hp : splitTimeJS timeStr = some (h, m)) :
    parseTime timeStr D
      = some (D * 86400000 + (if h < 7 then h + 12 else h) * 3600000 + m * 60000) ∧
    parseTime (str "1:00") D = some (D * 86400000 + 13 * 3600000) ∧
    parseTime (str "1:45") D = some (D * 86400000 + 13 * 3600000 + 45 * 60000) := by
  refine ⟨?_, ?_, ?_⟩
  · unfold parseTime
    rw [hp]
    rfl
  · show some (D * 86400000 + (if (1 : Int) < 7 then 1 + 12 else 1) * 3600000 + 0 * 60000)
      = some (D * 86400000 + 13 * 3600000)
    norm_num
  · show some (D * 86400000 + (if (1 : Int) < 7 then 1 + 12 else 1) * 3600000 + 45 * 60000)
      = some (D * 86400000 + 13 * 3600000 + 45 * 60000)
    norm_num

theorem time_convention_witness :
    parseTime (str "7:30") 20549
      = some (20549 * 86400000 + (if (7 : Int) < 7 then 7 + 12 else 7) * 3600000 + 30 * 60000) :=
  (time_convention (str "7:30") 7 30 20549 (by rfl)).1

/-! ## Lunch database persistence (`pstToUtcIso`, `insert`, `insertMany` of
`ScheduleLunchDatabase`) -/

/-- `n.toString().padStart(2, "0")`. -/
def pad2 (n : Nat) : Str := if n < 10 then 48 :: natToStr n else natToStr n

/-- The template of `pstToUtcIso`:
`${y}-${pad(mo)}-${pad(d)}T${pad(h)}:${pad(mi)}:${pad(s)}.000Z` built from
the calendar getters of the shifted instant (runtime time zone UTC, so the
local getters coincide with the UTC ones). -/
def isoFormat (u : Int) : Str :=
  let c := civilFromDays (u / 86400000)
  intToStr c.1 ++ [45] ++ pad2 c.2.1.toNat ++ [45] ++ pad2 c.2.2.toNat
    ++ [84] ++ pad2 ((u / 3600000) % 24).toNat ++ [58] ++ pad2 ((u / 60000) % 60).toNat
    ++ [58] ++ pad2 ((u / 1000) % 60).toNat ++ str ".000Z"

/-- `pstToUtcIso(date)`: add 8 hours, then format. -/
def pstToUtcIso (t : Int) : Str := isoFormat (t + 8 * 60 * 60 * 1000)

/-- A `ScheduleLunchEntry` (lunch: 0 = A, 1 = B, 2 = NONE). -/
structure LunchEntry where
  name : Str
  startTime : Int
  endTime : Int
  lunch : Int
deriving DecidableEq, Repr

/-- The row bound by `insert` / by each `insertMany` iteration:
`(name, pstToUtcIso(startTime), pstToUtcIso(endTime), lunch)`. -/
def insertLunchRow (e : LunchEntry) : Str × Str × Str × Int :=
  (e.name, pstToUtcIso e.startTime, pstToUtcIso e.endTime, e.lunch)

/-- The rows inserted by `insertMany(entries)`, in order. -/
def insertManyLunch (es : List LunchEntry) : List (Str × Str × Str × Int) :=
  es.map insertLunchRow

/-- Read a leading digit run as a number. -/
def readNat (s : Str) : Option (Nat × Str) :=
  let ds := s.takeWhile isDigitC
  if ds = [] then none else some (digitsVal ds, s.drop ds.length)

def expectC (c : Nat) (s : Str) : Option Str :=
  match s with
  | c' :: rest => if c' = c then some rest else none
  | [] => none

/-- The instant denoted by a stored `Y-M-DTh:m:s.000Z` string (what a reader
of the database column recovers). -/
def isoDenote (s : Str) : Option Int := do
  let (y, r1) ← readNat s
  let r2 ← expectC 45 r1
  let (mo, r3) ← readNat r2
  let r4 ← expectC 45 r3
  let (d, r5) ← readNat r4
  let r6 ← expectC 84 r5
  let (h, r7) ← readNat r6
  let r8 ← expectC 58 r7
  let (mi, r9) ← readNat r8
  let r10 ← expectC 58 r9
  let (sec, r11) ← readNat r10
  if r11 = str ".000Z" then
    some (daysFromCivil (y : Int) (mo : Int) (d : Int) * 86400000
      + (h : Int) * 3600000 + (mi : Int) * 60000 + (sec : Int) * 1000)
  else none

theorem digitsVal_append_last (a : Str) (b : Nat) :
    digitsVal (a ++ [b]) = 10 * digitsVal a + (b - 48) := by
  simp [digitsVal, List.foldl_append]

theorem natDigits_spec : ∀ fuel n, n < fuel →
    natDigits fuel n ≠ [] ∧ (∀ c ∈ natDigits fuel n, isDigitC c = true)
      ∧ digitsVal (natDigits fuel n) = n := by
  intro fuel
  induction fuel with
  | zero => intro n h; omega
  | succ fuel ih =>
    intro n h
    by_cases h10 : n < 10
    · simp only [natDigits, if_pos h10]
      refine ⟨by simp, ?_, ?_⟩
      · intro c hc
        simp only [List.mem_singleton] at hc
        subst hc
        simp [isDigitC]
        omega
      · simp [digitsVal]
    · simp only [natDigits, if_neg h10]
      have hih := ih (n / 10) (by omega)
      refine ⟨by simp, ?_, ?_⟩
      · intro c hc
        rcases List.mem_append.mp hc with h1 | h2
        · exact hih.2.1 c h1
        · simp only [List.mem_singleton] at h2
          subst h2
          simp [isDigitC]
          omega
      · rw [digitsVal_append_last, hih.2.2]
        omega

theorem natToStr_spec (n : Nat) :
    natToStr n ≠ [] ∧ (∀ c ∈ natToStr n, isDigitC c = true)
      ∧ digitsVal (natToStr n) = n :=
  natDigits_spec (n + 1) n (by omega)

theorem pad2_spec (n : Nat) :
    pad2 n ≠ [] ∧ (∀ c ∈ pad2 n, isDigitC c = true) ∧ digitsVal (pad2 n) = n := by
  have hn := natToStr_spec n
  unfold pad2
  by_cases h10 : n < 10
  · rw [if_pos h10]
    refine ⟨by simp, ?_, ?_⟩
    · intro c hc
      rcases List.mem_cons.mp hc with h1 | h2
      · subst h1; rfl
      · exact hn.2.1 c h2
    · show digitsVal (48 :: natToStr n) = n
      have : digitsVal (48 :: natToStr n) = digitsVal (natToStr n) := rfl
      rw [this, hn.2.2]
  · rw [if_neg h10]
    exact hn

theorem takeWhile_all_append (p : Nat → Bool) (l1 l2 : Str)
    (h1 : ∀ c ∈ l1, p c = true)
    (h2 : ∀ c, l2.head? = some c → p c = false) :
    (l1 ++ l2).takeWhile p = l1 := by
  induction l1 with
  | nil =>
    simp only [List.nil_append]
    cases l2 with
    | nil => rfl
    | cons c rest =>
      have := h2 c rfl
      simp [List.takeWhile_cons, this]
  | cons a l1 ih =>
    have ha := h1 a (by simp)
    simp [List.takeWhile_cons, ha, ih (fun c hc => h1 c (by simp [hc]))]

theorem readNat_append (ds rest : Str) (hne : ds ≠ [])
    (hds : ∀ c ∈ ds, isDigitC c = true)
    (hrest : ∀ c, rest.head? = some c → isDigitC c = false) :
    readNat (ds ++ rest) = some (digitsVal ds, rest) := by
  unfold readNat
  rw [takeWhile_all_append _ _ _ hds hrest, if_neg hne]
  rw [List.drop_left]

theorem expectC_cons (c : Nat) (rest : Str) : expectC c (c :: rest) = some rest := by
  simp [expectC]

theorem isoDenote_format_general (y mo d h mi sec : Nat) :
    isoDenote (natToStr y ++ [45] ++ pad2 mo ++ [45] ++ pad2 d ++ [84] ++ pad2 h
      ++ [58] ++ pad2 mi ++ [58] ++ pad2 sec ++ str ".000Z")
      = some (daysFromCivil y mo d * 86400000 + h * 3600000 + mi * 60000 + sec * 1000) := by
  have hy := natToStr_spec y
  have hmo := pad2_spec mo
  have hd := pad2_spec d
  have hh := pad2_spec h
  have hmi := pad2_spec mi
  have hsec := pad2_spec sec
  simp only [List.append_assoc, List.singleton_append, List.cons_append, List.nil_append]
  unfold isoDenote
  rw [readNat_append _ _ hy.1 hy.2.1 (by intro c hc; injection hc with hc; subst hc; rfl)]
  simp only [Option.bind_eq_bind, Option.some_bind, expectC_cons, List.cons_append, List.nil_append]
  rw [readNat_append _ _ hmo.1 hmo.2.1 (by intro c hc; injection hc with hc; subst hc; rfl)]
  simp only [Option.some_bind, expectC_cons, List.cons_append, List.nil_append]
  rw [readNat_append _ _ hd.1 hd.2.1 (by intro c hc; injection hc with hc; subst hc; rfl)]
  simp only [Option.some_bind, expectC_cons, List.cons_append, List.nil_append]
  rw [readNat_append _ _ hh.1 hh.2.1 (by intro c hc; injection hc with hc; subst hc; rfl)]
  simp only [Option.some_bind, expectC_cons, List.cons_append, List.nil_append]
  rw [readNat_append _ _ hmi.1 hmi.2.1 (by intro c hc; injection hc with hc; subst hc; rfl)]
  simp only [Option.some_bind, expectC_cons, List.cons_append, List.nil_append]
  rw [readNat_append _ _ hsec.1 hsec.2.1 (by intro c hc; injection hc with hc; subst hc; rfl)]
  simp only [Option.some_bind]
  rw [if_pos trivial]
  rw [hy.2.2, hmo.2.2, hd.2.2, hh.2.2, hmi.2.2, hsec.2.2]

theorem civil_bounds (z : Int) (hz : 0 ≤ z) :
    1600 ≤ (civilFromDays z).1 ∧ 1 ≤ (civilFromDays z).2.1 ∧ (civilFromDays z).2.1 ≤ 12
      ∧ 1 ≤ (civilFromDays z).2.2 ∧ (civilFromDays z).2.2 ≤ 31 := by
  simp only [civilFromDays]
  have hf := yoe_facts ((z + 719468) % 146097) (by omega) (by omega)
  have hmp : mpOfDoe ((z + 719468) % 146097)
      = (5 * doyOfDoe ((z + 719468) % 146097) + 2) / 153 := by rw [mpOfDoe]
  have hm : mOfDoe ((z + 719468) % 146097)
      = mpOfDoe ((z + 719468) % 146097)
        + (if mpOfDoe ((z + 719468) % 146097) < 10 then 3 else -9) := by rw [mOfDoe]
  have hd : dOfDoe ((z + 719468) % 146097)
      = doyOfDoe ((z + 719468) % 146097)
        - (153 * mpOfDoe ((z + 719468) % 146097) + 2) / 5 + 1 := by rw [dOfDoe]
  split_ifs at hm ⊢ <;> omega

/-- Reading back the formatted string recovers the instant truncated to the
whole second. -/
theorem isoDenote_isoFormat (u : Int) (hu : 0 ≤ u) :
    isoDenote (isoFormat u) = some (u - u % 1000) := by
  have hb := civil_bounds (u / 86400000) (by omega)
  simp only [isoFormat]
  rw [intToStr, if_neg (by omega)]
  rw [isoDenote_format_general]
  rw [Int.toNat_of_nonneg (by omega), Int.toNat_of_nonneg (by omega),
    Int.toNat_of_nonneg (by omega), Int.toNat_of_nonneg (by omega),
    Int.toNat_of_nonneg (by omega), Int.toNat_of_nonneg (by omega)]
  rw [civil_roundtrip]
  congr 1
  omega

/-! ## Claims about lunch-database persistence -/

/-- Claim C10, counterexample: refutation of "the stored string always differs from the in-memory
instant by exactly 8 hours": at the instant 1 ms after the epoch the stored
string denotes exactly 08:00:00 UTC — the sub-second part is dropped by the
hard-coded ".000", so the stored instant differs from `t + 8h` by 1 ms. -/
theorem pst_ms_counterexample :
    pstToUtcIso 1 = str "1970-01-01T08:00:00.000Z" ∧
    isoDenote (pstToUtcIso 1) = some 28800000 ∧
    (28800000 : Int) ≠ 1 + 8 * 60 * 60 * 1000 := by
  refine ⟨by decide, by decide, by decide⟩

/-- Claim C10 (amended): `insert`/`insertMany` persist each instant by adding exactly 8 hours
(fixed PST→UTC offset, no daylight-saving adjustment) and formatting with a
hard-coded ".000" millisecond field: the stored string denotes
`t + 8h` truncated to the whole second. -/
theorem pst_to_utc (e : LunchEntry) (hs : 0 ≤ e.startTime) (he : 0 ≤ e.endTime) :
    isoDenote (insertLunchRow e).2.1
      = some (e.startTime + 28800000 - e.startTime % 1000) ∧
    isoDenote (insertLunchRow e).2.2.1
      = some (e.endTime + 28800000 - e.endTime % 1000) ∧
    ∀ es : List LunchEntry, insertManyLunch es = es.map insertLunchRow := by
  refine ⟨?_, ?_, fun es => rfl⟩
  · show isoDenote (pstToUtcIso e.startTime) = _
    rw [pstToUtcIso, isoDenote_isoFormat _ (by omega)]
    congr 1
    omega
  · show isoDenote (pstToUtcIso e.endTime) = _
    rw [pstToUtcIso, isoDenote_isoFormat _ (by omega)]
    congr 1
    omega

theorem pst_to_utc_witness :
    isoDenote (insertLunchRow ⟨str "Period 1", 0, 1000, 2⟩).2.1
      = some (0 + 28800000 - 0 % 1000) :=
  (pst_to_utc ⟨str "Period 1", 0, 1000, 2⟩ (by decide) (by decide)).1
